import Mathlib

/-!
Verification of the `state-machine-union-return` ESLint rule
(`src/eslint-plugin-state-machine/index.ts`).

The rule statically analyzes `new StateMachine({config, commands})`
construction sites: it extracts the declared transition table from `config`,
walks each command factory's `execute` thunk to collect the state ids it can
return, and reports when the implementation provably returns fewer distinct
states than the configuration declares.

We shallowly embed the fragment of the TSESTree AST that the rule consults
(per the design notes, a closed tagged-variant type with an explicit
"unrecognized" case), and translate each function of the rule into a total
Lean function with the same structure.
-/

namespace StateMachineRule

/-- The value carried by a `Literal` node: the rule only distinguishes string
literals (`typeof value === 'string'`) from every other literal value. -/
inductive LitValue where
  | str (s : String)
  | nonStr
deriving DecidableEq, Repr

/-- The key of an object `Property`.  The rule only ever checks
`key.type === 'Identifier'` and then reads `key.name`; a string-literal key
and any other key shape (computed keys etc.) are kept distinct so that the
"identifier keys only" behavior is statable. -/
inductive PropKey where
  | ident (name : String)
  | strLit (s : String)
  | other
deriving DecidableEq, Repr

mutual

/-- The closed set of AST node shapes the rule consults.  Fields the rule
never reads on any path (e.g. an `IfStatement`'s test, a `SwitchCase`'s test,
a `SwitchStatement`'s discriminant) are omitted; any node shape outside this
set behaves exactly like `other` under every function below. -/
inductive Node where
  /-- `Identifier` with its `name`. -/
  | ident (name : String)
  /-- `MemberExpression` with `object` and `property`. -/
  | member (object : Node) (property : Node)
  /-- `Literal` with its value. -/
  | lit (value : LitValue)
  /-- `ObjectExpression` with its `properties`. -/
  | objectExpr (properties : List ObjMember)
  /-- `ArrayExpression`; an element may be `null` (elision). -/
  | arrayExpr (elements : List (Option Node))
  /-- `ArrowFunctionExpression`; `body` is an expression or a `block`. -/
  | arrowFn (body : Node)
  /-- `FunctionExpression`; `body` is a `block` in every parsed tree. -/
  | functionExpr (body : Node)
  /-- `BlockStatement` with its statement list `body`. -/
  | block (body : List Node)
  /-- `ReturnStatement` with optional `argument`. -/
  | ret (argument : Option Node)
  /-- `IfStatement` with `consequent` and optional `alternate`. -/
  | ifStmt (consequent : Node) (alternate : Option Node)
  /-- `SwitchStatement` with its `cases` (each a `switchCase` in parsed trees). -/
  | switchStmt (cases : List Node)
  /-- `SwitchCase` with its `consequent` statement list. -/
  | switchCase (consequent : List Node)
  /-- `NewExpression` with `callee` and `arguments`. -/
  | newExpr (callee : Node) (args : List Node)
  /-- Any node shape the rule never recognizes. -/
  | other

/-- A member of an `ObjectExpression.properties` list: a `Property`
(key/value) or any non-`Property` member (spread element etc.). -/
inductive ObjMember where
  | property (key : PropKey) (value : Node)
  | nonProperty

end

/-- `extractStateIdFromExpression`: on an `ObjectExpression`, return the
value of the first `Property` whose key is the identifier `id` and whose
value is a string `Literal`; otherwise fall through (the source returns
`undefined`).  A matching key with a non-string value does not stop the
scan (the source's loop just continues). -/
def findIdProp : List ObjMember → Option String
  | [] => none
  | .property (.ident "id") (.lit (.str s)) :: _ => some s
  | _ :: rest => findIdProp rest

/-- `extractStateIdFromExpression` (src lines 314-323). -/
def extractStateIdFromExpression : Node → Option String
  | .objectExpr props => findIdProp props
  | _ => none

/-- The `FunctionExpression || ArrowFunctionExpression` test of
`getExecuteFromObject`. -/
def isFunctionLike : Node → Bool
  | .arrowFn _ => true
  | .functionExpr _ => true
  | _ => false

/-- `getExecuteFromObject` (src lines 250-262): first `Property` with
identifier key `execute` whose value is function-like; an `execute` key with
a non-function value does not stop the loop. -/
def getExecuteFromObject : List ObjMember → Option Node
  | [] => none
  | .property (.ident "execute") v :: rest =>
      if isFunctionLike v then some v else getExecuteFromObject rest
  | _ :: rest => getExecuteFromObject rest

/-- The statement loop shared by both branches of `findExecuteMethod`
(src lines 222-230 and 235-243): on the first `ReturnStatement` whose
argument is an `ObjectExpression`, the source returns
`getExecuteFromObject(argument)` (even when that is `null`); a return with
no argument or a non-object argument is stepped over. -/
def findExecuteInStatements : List Node → Option Node
  | [] => none
  | .ret (some (.objectExpr props)) :: _ => getExecuteFromObject props
  | _ :: rest => findExecuteInStatements rest

/-- `findExecuteMethod` (src lines 211-247). -/
def findExecuteMethod : Node → Option Node
  | .arrowFn (.objectExpr props) => getExecuteFromObject props
  | .arrowFn (.block stmts) => findExecuteInStatements stmts
  | .functionExpr (.block stmts) => findExecuteInStatements stmts
  | _ => none

/-- `stateIds.add`: the JS `Set` is modelled as its insertion-ordered,
duplicate-free element list, so `size` is `length` and `Array.from` is the
identity. -/
def addId (s : String) (ids : List String) : List String :=
  if ids.contains s then ids else ids ++ [s]

/-- Add the result of `extractStateIdFromExpression` when truthy
(`if (stateId) stateIds.add(stateId)`): an absent result is skipped, and so
is an extracted empty string, which is falsy in JS — `{id: ''}` contributes
nothing to the set. -/
def addExtracted (stateId : Option String) (ids : List String) : List String :=
  match stateId with
  | some s => if s = "" then ids else addId s ids
  | none => ids

/-- `body.type !== AST_NODE_TYPES.BlockStatement` test on an arrow body. -/
def isBlockStatement : Node → Bool
  | .block _ => true
  | _ => false

mutual

/-- The recursive `visit` of `findReturnedStateIds` (src lines 269-307),
with the `stateIds` set threaded as an accumulator.  The source's
`WeakSet` visited-guard never fires on a parser-produced tree (each node
has one parent and `visit` reaches every node at most once), so it is not
modelled; termination is structural.

Per node shape, the source's duck-typed child checks resolve to:
* `arrowFn`: if the body is not a block, extract an id from it (implicit
  return), then `'body' in node` holds, so visit the body;
* `functionExpr`: visit the body;
* `block`: `node.body` is an array, so `node.body.forEach(visit)`;
* `ret`: if the argument is present, extract an id from it, and
  `'argument' in node`, so visit it;
* `ifStmt`: visit `consequent`, and `alternate` when present;
* `switchStmt`: `'cases' in node`, so `node.cases.forEach(visit)`;
* `switchCase`: `'consequent' in node` and the consequent (an array, truthy
  even when empty) is passed to `visit` itself — see `visitStatementArray`;
* every other shape (`ident`, `member`, `lit`, `objectExpr`, `arrayExpr`,
  `newExpr`, `other`): none of `body`/`consequent`/`alternate`/`argument`/
  `cases` is a key of the node, so nothing is visited. -/
def visitNode : Node → List String → List String
  | .arrowFn body, ids =>
      let ids :=
        if isBlockStatement body then ids
        else addExtracted (extractStateIdFromExpression body) ids
      visitNode body ids
  | .functionExpr body, ids => visitNode body ids
  | .block stmts, ids => visitNodeList stmts ids
  | .ret none, ids => ids
  | .ret (some arg), ids =>
      visitNode arg (addExtracted (extractStateIdFromExpression arg) ids)
  | .ifStmt consequent none, ids => visitNode consequent ids
  | .ifStmt consequent (some alternate), ids =>
      visitNode alternate (visitNode consequent ids)
  | .switchStmt cases, ids => visitNodeList cases ids
  | .switchCase consequent, ids => visitStatementArray consequent ids
  | _, ids => ids

/-- `forEach(visit)` over a node list (`node.body.forEach(visit)` and
`node.cases.forEach(visit)`). -/
def visitNodeList : List Node → List String → List String
  | [], ids => ids
  | n :: rest, ids => visitNodeList rest (visitNode n ids)

/-- `visit(node.consequent)` on a `SwitchCase` passes the raw statement
ARRAY to `visit`.  An array is an object, so the guard passes, but it has
none of the keys `type`, `body`, `consequent`, `alternate`, `argument`,
`cases` (only `node.body` is ever tested with `Array.isArray`), so `visit`
falls through every check and the statements inside the array are never
visited: the call contributes nothing. -/
def visitStatementArray : List Node → List String → List String
  | _, ids => ids

end

/-- `findReturnedStateIds` (src lines 265-311): `visit(funcNode)` starting
from the empty set. -/
def findReturnedStateIds (funcNode : Node) : List String :=
  visitNode funcNode []

/-- A reported diagnostic: the `messageId` plus the `data` fields of
`context.report`, and the anchor node (`node: executeFunc`). -/
structure Diagnostic where
  messageId : String
  message : String
  count : String
  states : String
  actualState : String
  node : Node

/-- `analyzeCommandFactory` (src lines 171-208), returning the list of
diagnostics it reports (zero or one). -/
def analyzeCommandFactory (factoryNode : Node) (messageName : String)
    (targetStates : List String) : List Diagnostic :=
  match findExecuteMethod factoryNode with
  | none => []
  | some executeFunc =>
    let returnedStateIds := findReturnedStateIds executeFunc
    if returnedStateIds.length = 1 then
      [{ messageId := "alwaysSameState"
         message := messageName
         count := toString targetStates.length
         states := String.intercalate ", " targetStates
         actualState := returnedStateIds.headD ""
         node := executeFunc }]
    else if returnedStateIds.length > 0 ∧
        returnedStateIds.length < targetStates.length then
      [{ messageId := "missingUnionReturn"
         message := messageName
         count := toString targetStates.length
         states := String.intercalate ", " targetStates
         actualState := String.intercalate ", " returnedStateIds
         node := executeFunc }]
    else []

/-- A JS `Map` as its insertion-ordered entry list; `set` updates in place
when the key exists, else appends. -/
def mapSet {α : Type} (k : String) (v : α) :
    List (String × α) → List (String × α)
  | [] => [(k, v)]
  | (k', v') :: rest =>
      if k' = k then (k, v) :: rest else (k', v') :: mapSet k v rest

/-- `Map.get`, `none` for a missing key. -/
def mapGet {α : Type} (k : String) : List (String × α) → Option α
  | [] => none
  | (k', v) :: rest => if k' = k then some v else mapGet k rest

/-- message name → declared target-state list. -/
abbrev MessageMap := List (String × List String)

/-- state name → `MessageMap`. -/
abbrev TransitionMap := List (String × MessageMap)

/-- The element loop of `parseStateMachineConfig` (src lines 122-127):
keep exactly the non-null elements that are string `Literal`s, in order,
duplicates preserved. -/
def collectTargetStates : List (Option Node) → List String
  | [] => []
  | some (.lit (.str s)) :: rest => s :: collectTargetStates rest
  | _ :: rest => collectTargetStates rest

/-- The message loop of `parseStateMachineConfig` (src lines 115-132):
only `Property` members with identifier keys are considered; the target
list is collected only from an `ArrayExpression` value and the message is
entered in the map only when the list is non-empty. -/
def parseMessages : List ObjMember → MessageMap → MessageMap
  | [], messageMap => messageMap
  | .property (.ident messageName) value :: rest, messageMap =>
      let targetStates :=
        match value with
        | .arrayExpr elems => collectTargetStates elems
        | _ => []
      parseMessages rest
        (if targetStates.length > 0 then mapSet messageName targetStates messageMap
         else messageMap)
  | _ :: rest, messageMap => parseMessages rest messageMap

/-- `properties.find` for the `on` property (src lines 101-103): the first
`Property` member with identifier key `on`. -/
def findOnProp : List ObjMember → Option Node
  | [] => none
  | .property (.ident "on") v :: _ => some v
  | _ :: rest => findOnProp rest

/-- The state loop of `parseStateMachineConfig` (src lines 93-135): a state
entry needs an identifier key, an `ObjectExpression` value, and an `on`
property whose value is an `ObjectExpression`; otherwise it is skipped
(`continue`).  A qualifying state is entered even with an empty message
map. -/
def parseStates : List ObjMember → TransitionMap → TransitionMap
  | [], transitions => transitions
  | .property (.ident stateName) (.objectExpr stateProps) :: rest, transitions =>
      (match findOnProp stateProps with
       | some (.objectExpr onProps) =>
           parseStates rest (mapSet stateName (parseMessages onProps []) transitions)
       | _ => parseStates rest transitions)
  | _ :: rest, transitions => parseStates rest transitions

/-- `parseStateMachineConfig` (src lines 90-138), on the `config`
`ObjectExpression`'s property list. -/
def parseStateMachineConfig (configProps : List ObjMember) : TransitionMap :=
  parseStates configProps []

/-- The message loop of `checkCommands` (src lines 153-166): a command
entry with identifier key whose message has a declared list of length ≥ 2
is analyzed; all diagnostics are concatenated in source order. -/
def checkMessages (props : List ObjMember) (messageMap : MessageMap) :
    List Diagnostic :=
  match props with
  | [] => []
  | .property (.ident messageName) commandFactory :: rest =>
      (match mapGet messageName messageMap with
       | none => []
       | some targetStates =>
           if targetStates.length ≤ 1 then []
           else analyzeCommandFactory commandFactory messageName targetStates)
      ++ checkMessages rest messageMap
  | _ :: rest => checkMessages rest messageMap

/-- The state loop of `checkCommands` (src lines 142-167). -/
def checkStates (props : List ObjMember) (transitions : TransitionMap) :
    List Diagnostic :=
  match props with
  | [] => []
  | .property (.ident stateName) (.objectExpr msgProps) :: rest =>
      (match mapGet stateName transitions with
       | none => []
       | some messageMap => checkMessages msgProps messageMap)
      ++ checkStates rest transitions
  | _ :: rest => checkStates rest transitions

/-- `checkCommands` (src lines 141-168), on the `commands`
`ObjectExpression`'s property list. -/
def checkCommands (commandsProps : List ObjMember)
    (transitions : TransitionMap) : List Diagnostic :=
  checkStates commandsProps transitions

/-- The `isStateMachine` test of the `NewExpression` handler
(src lines 46-52): a direct `StateMachine` identifier or a member
expression whose property is the identifier `StateMachine`. -/
def isStateMachine : Node → Bool
  | .ident name => name = "StateMachine"
  | .member _ (.ident name) => name = "StateMachine"
  | _ => false

/-- The property scan of the `NewExpression` handler (src lines 68-75):
walk all properties, remembering the LAST `config` / `commands`
`Property` with identifier key and `ObjectExpression` value. -/
def scanConfigCommands : List ObjMember →
    Option (List ObjMember) × Option (List ObjMember) →
    Option (List ObjMember) × Option (List ObjMember)
  | [], acc => acc
  | .property (.ident name) (.objectExpr props) :: rest, (configProp, commandsProp) =>
      scanConfigCommands rest
        ((if name = "config" then some props else configProp),
         (if name = "commands" then some props else commandsProp))
  | _ :: rest, acc => scanConfigCommands rest acc

/-- The `NewExpression` handler (src lines 44-84): the diagnostics emitted
for one construction site.  The source checks `arguments.length === 0 ||
arguments[0].type !== 'ObjectExpression'`; extra arguments beyond the
first are not inspected. -/
def handleNewExpression : Node → List Diagnostic
  | .newExpr callee args =>
      if ¬ isStateMachine callee then []
      else
        match args with
        | .objectExpr configObjProps :: _ =>
            (match scanConfigCommands configObjProps (none, none) with
             | (some configProps, some commandsProps) =>
                 checkCommands commandsProps (parseStateMachineConfig configProps)
             | _ => [])
        | _ => []
  | _ => []

/-! ### Auxiliary definitions for the statements -/

/-- The parent-to-descendant edges the `visit` traversal actually follows:
arrow/function bodies, block statements, present return arguments, both
branches of an `if`, and the `cases` of a `switch`.  Deliberately absent is
any edge from a `switchCase` into its consequent statements — `visit` is
handed that raw array and drops it (see `visitStatementArray`). -/
inductive Reaches : Node → Node → Prop where
  | refl (n : Node) : Reaches n n
  | arrowBody {body m : Node} : Reaches body m → Reaches (.arrowFn body) m
  | fnBody {body m : Node} : Reaches body m → Reaches (.functionExpr body) m
  | blockStmt {stmts : List Node} {n m : Node} :
      n ∈ stmts → Reaches n m → Reaches (.block stmts) m
  | retArg {arg m : Node} : Reaches arg m → Reaches (.ret (some arg)) m
  | ifCons {c m : Node} {a : Option Node} :
      Reaches c m → Reaches (.ifStmt c a) m
  | ifAlt {c a m : Node} : Reaches a m → Reaches (.ifStmt c (some a)) m
  | switchCases {cases : List Node} {n m : Node} :
      n ∈ cases → Reaches n m → Reaches (.switchStmt cases) m

/-- Spec-side description of a declared-target element (claim C6): an array
element is retained exactly when it is a plain string literal. -/
def stringLitOfElement : Option Node → Option String
  | some (.lit (.str s)) => some s
  | _ => none

/-- Spec-side formalisation of the locator condition as the claim words it
(claim C7): "the sole constructor argument is a literal structure" — the
argument list consists of exactly one element, and it is an
`ObjectExpression`. -/
def soleArgumentIsObjectLiteral : List Node → Bool
  | [.objectExpr _] => true
  | _ => false

/-! ### Concrete example trees (used in witnesses and counterexamples) -/

/-- `() => ({ id: 'active' })`. -/
def exExecActive : Node :=
  .arrowFn (.objectExpr [.property (.ident "id") (.lit (.str "active"))])

/-- `({message}) => ({ execute: () => ({id:'active'}), undo: () => ({}) })`. -/
def exFactory : Node :=
  .arrowFn (.objectExpr
    [.property (.ident "execute") exExecActive,
     .property (.ident "undo") (.arrowFn (.objectExpr []))])

/-- `() => { if (c) { return {id:'a'} } else { return {id:'b'} } }`. -/
def exExecAB : Node :=
  .arrowFn (.block
    [.ifStmt
      (.block [.ret (some (.objectExpr [.property (.ident "id") (.lit (.str "a"))]))])
      (some (.block [.ret (some (.objectExpr [.property (.ident "id") (.lit (.str "b"))]))]))])

/-- A factory whose execute thunk is `exExecAB`. -/
def exFactoryAB : Node :=
  .arrowFn (.objectExpr [.property (.ident "execute") exExecAB])

/-- `() => { switch (x) { case 'a': return {id:'active'}; case 'b': return
{id:'idle'}; } }` — an execute thunk whose every return sits inside a
switch case body. -/
def exExecSwitch : Node :=
  .arrowFn (.block
    [.switchStmt
      [.switchCase [.ret (some (.objectExpr [.property (.ident "id") (.lit (.str "active"))]))],
       .switchCase [.ret (some (.objectExpr [.property (.ident "id") (.lit (.str "idle"))]))]]])

/-- A config property list declaring `idle.on.activate: ['active','idle']`. -/
def exConfigProps : List ObjMember :=
  [.property (.ident "idle") (.objectExpr
    [.property (.ident "on") (.objectExpr
      [.property (.ident "activate")
        (.arrayExpr [some (.lit (.str "active")), some (.lit (.str "idle"))])])])]

/-- A commands property list implementing `idle.activate` with `exFactory`. -/
def exCommandsProps : List ObjMember :=
  [.property (.ident "idle") (.objectExpr
    [.property (.ident "activate") exFactory])]

/-- The argument list of a `new StateMachine({config, commands}, extra)`
call: a well-formed first argument followed by a second argument. -/
def exTwoArgs : List Node :=
  [.objectExpr
    [.property (.ident "config") (.objectExpr exConfigProps),
     .property (.ident "commands") (.objectExpr exCommandsProps)],
   .ident "extra"]

/-- Array elements mixing string literals with dropped shapes:
`['a', x, <elision>, 42, 'b']`. -/
def exElems : List (Option Node) :=
  [some (.lit (.str "a")), some (.ident "x"), none,
   some (.lit .nonStr), some (.lit (.str "b"))]

/-- Array elements with no string literal: `[x]`. -/
def exElemsNoLit : List (Option Node) :=
  [some (.ident "x")]

/-! ### Theorems -/

/-- C1: for a pair with at least two declared targets whose execute thunk is
located, a singleton Returned-State Set `[S]` yields exactly one
ALWAYS_SAME_STATE (`alwaysSameState`) diagnostic carrying the message name,
the declared count, the full ordered declared list, and `S`, anchored at the
execute thunk. -/
theorem C1_always_same_state (factoryNode : Node) (messageName : String)
    (targetStates : List String) (_h2 : 2 ≤ targetStates.length)
    (executeFunc : Node)
    (hexec : findExecuteMethod factoryNode = some executeFunc)
    (S : String) (hone : findReturnedStateIds executeFunc = [S]) :
    analyzeCommandFactory factoryNode messageName targetStates =
      [{ messageId := "alwaysSameState"
         message := messageName
         count := toString targetStates.length
         states := String.intercalate ", " targetStates
         actualState := S
         node := executeFunc }] := by
  unfold analyzeCommandFactory
  rw [hexec]
  simp [hone]

/-- Witness for C1 at the README's example: `activate` declares
`['active','idle']` and the implementation always returns `{id:'active'}`. -/
theorem C1_witness :
    2 ≤ (["active", "idle"] : List String).length ∧
    analyzeCommandFactory exFactory "activate" ["active", "idle"] =
      [{ messageId := "alwaysSameState"
         message := "activate"
         count := toString (["active", "idle"] : List String).length
         states := String.intercalate ", " ["active", "idle"]
         actualState := "active"
         node := exExecActive }] :=
  ⟨by decide,
   C1_always_same_state exFactory "activate" ["active", "idle"] (by decide)
     exExecActive rfl "active" rfl⟩

/-- C2: for a pair with at least two declared targets whose execute thunk is
located, a Returned-State Set of size strictly between 1 and the declared
count yields exactly one PARTIAL_UNION (`missingUnionReturn`) diagnostic
carrying the message name, the declared count, the full declared list, and
all distinct observed identifiers. -/
theorem C2_partial_union (factoryNode : Node) (messageName : String)
    (targetStates : List String) (_h2 : 2 ≤ targetStates.length)
    (executeFunc : Node)
    (hexec : findExecuteMethod factoryNode = some executeFunc)
    (hgt : 1 < (findReturnedStateIds executeFunc).length)
    (hlt : (findReturnedStateIds executeFunc).length < targetStates.length) :
    analyzeCommandFactory factoryNode messageName targetStates =
      [{ messageId := "missingUnionReturn"
         message := messageName
         count := toString targetStates.length
         states := String.intercalate ", " targetStates
         actualState := String.intercalate ", " (findReturnedStateIds executeFunc)
         node := executeFunc }] := by
  unfold analyzeCommandFactory
  rw [hexec]
  have h1 : ¬ (findReturnedStateIds executeFunc).length = 1 := by omega
  have h0 : 0 < (findReturnedStateIds executeFunc).length := by omega
  simp [h1, h0, hlt]

/-- Witness for C2: declared `['a','b','c']`, implementation branches
between `{id:'a'}` and `{id:'b'}`. -/
theorem C2_witness :
    analyzeCommandFactory exFactoryAB "go" ["a", "b", "c"] =
      [{ messageId := "missingUnionReturn"
         message := "go"
         count := toString (["a", "b", "c"] : List String).length
         states := String.intercalate ", " ["a", "b", "c"]
         actualState := String.intercalate ", " (findReturnedStateIds exExecAB)
         node := exExecAB }] :=
  C2_partial_union exFactoryAB "go" ["a", "b", "c"] (by decide)
    exExecAB rfl (by decide) (by decide)

/-- C4: for a pair with at least two declared targets the analyzer is
silent both when the Returned-State Set is empty (in particular when no
execute thunk is located) and when its size reaches the declared count,
with no requirement that the observed identifiers be declared ones. -/
theorem C4_suppression (factoryNode : Node) (messageName : String)
    (targetStates : List String) (h2 : 2 ≤ targetStates.length) :
    ((∀ executeFunc, findExecuteMethod factoryNode = some executeFunc →
        findReturnedStateIds executeFunc = []) →
      analyzeCommandFactory factoryNode messageName targetStates = []) ∧
    (∀ executeFunc, findExecuteMethod factoryNode = some executeFunc →
        targetStates.length ≤ (findReturnedStateIds executeFunc).length →
      analyzeCommandFactory factoryNode messageName targetStates = []) := by
  constructor
  · intro hempty
    unfold analyzeCommandFactory
    cases hexec : findExecuteMethod factoryNode with
    | none => rfl
    | some executeFunc => simp [hempty executeFunc hexec]
  · intro executeFunc hexec hge
    unfold analyzeCommandFactory
    rw [hexec]
    have h1 : ¬ (findReturnedStateIds executeFunc).length = 1 := by omega
    have h2' : ¬ (findReturnedStateIds executeFunc).length < targetStates.length := by
      omega
    simp [h1, h2']

/-- Witness for C4: a factory with no `execute` property is silent, and a
factory observed to return `{a, b}` against declared `['x','y']` (observed
not a subset of declared) is silent because 2 ≥ 2. -/
theorem C4_witness :
    analyzeCommandFactory (Node.arrowFn (Node.objectExpr [])) "go" ["x", "y"] = [] ∧
    analyzeCommandFactory exFactoryAB "go" ["x", "y"] = [] :=
  ⟨(C4_suppression (Node.arrowFn (Node.objectExpr [])) "go" ["x", "y"] (by decide)).1
     (fun _ he => Option.noConfusion he),
   (C4_suppression exFactoryAB "go" ["x", "y"] (by decide)).2
     exExecAB rfl (by decide)⟩

/-- C5: a command entry whose message has no declared-target list, or a
declared-target list with fewer than two entries, contributes no diagnostic
at all — the factory is never analyzed, whatever its shape. -/
theorem C5_short_list_never_analyzed (messageName : String)
    (commandFactory : Node) (rest : List ObjMember) (messageMap : MessageMap)
    (h : ∀ targetStates, mapGet messageName messageMap = some targetStates →
      targetStates.length < 2) :
    checkMessages (.property (.ident messageName) commandFactory :: rest) messageMap
      = checkMessages rest messageMap := by
  simp only [checkMessages]
  cases hm : mapGet messageName messageMap with
  | none => simp
  | some targetStates =>
    have hle : targetStates.length ≤ 1 := Nat.lt_succ_iff.mp (h targetStates hm)
    simp [hle]

/-- Witness for C5: `go` retains the single declared target `['a']`, so the
always-same-state factory `exFactory` is never analyzed. -/
theorem C5_witness :
    checkMessages [.property (.ident "go") exFactory] [("go", ["a"])]
      = checkMessages [] [("go", ["a"])] :=
  C5_short_list_never_analyzed "go" exFactory [] [("go", ["a"])]
    (fun targetStates hts => by
      simp [mapGet] at hts
      subst hts
      decide)

/-- C6: for every element list of a message's array value, the Declared
Target List equals the left-to-right subsequence of plain string-literal
elements (duplicates and order preserved, everything else dropped without
error), and a message whose retained list is empty is omitted entirely from
the message map. -/
theorem C6_declared_target_list (elems : List (Option Node)) :
    collectTargetStates elems = elems.filterMap stringLitOfElement ∧
    (∀ messageName rest messageMap, collectTargetStates elems = [] →
      parseMessages (.property (.ident messageName) (.arrayExpr elems) :: rest) messageMap
        = parseMessages rest messageMap) := by
  constructor
  · induction elems with
    | nil => rfl
    | cons e rest ih =>
      match e with
      | none => simpa [collectTargetStates, stringLitOfElement] using ih
      | some (.lit (.str s)) =>
        simpa [collectTargetStates, stringLitOfElement] using ih
      | some (.lit .nonStr) =>
        simpa [collectTargetStates, stringLitOfElement] using ih
      | some (.ident _) | some (.member _ _) | some (.objectExpr _)
      | some (.arrayExpr _) | some (.arrowFn _) | some (.functionExpr _)
      | some (.block _) | some (.ret _) | some (.ifStmt _ _)
      | some (.switchStmt _) | some (.switchCase _) | some (.newExpr _ _)
      | some .other =>
        simpa [collectTargetStates, stringLitOfElement] using ih
  · intro messageName rest messageMap hempty
    simp [parseMessages, hempty]

/-- Witness for C6 at `['a', x, <elision>, 42, 'b']` (kept list `['a','b']`)
and at `[x]` (kept list empty, message omitted). -/
theorem C6_witness :
    collectTargetStates exElems = exElems.filterMap stringLitOfElement ∧
    parseMessages [.property (.ident "go") (.arrayExpr exElemsNoLit)] []
      = parseMessages [] [] :=
  ⟨(C6_declared_target_list exElems).1,
   (C6_declared_target_list exElemsNoLit).2 "go" [] [] rfl⟩

/-- C7 counterexample: a `new StateMachine({...}, extra)` call has two
constructor arguments — so it has no sole constructor argument that is a
literal structure, and by the claim it would have to be skipped without
analysis — yet the rule analyzes it and emits a diagnostic; the source only
inspects `arguments[0]` and ignores any further arguments. -/
theorem C7_counterexample :
    soleArgumentIsObjectLiteral exTwoArgs = false ∧
    (handleNewExpression (.newExpr (.ident "StateMachine") exTwoArgs)).length = 1 :=
  ⟨rfl, rfl⟩

/-- C7 as amended: the locator analyzes a construction expression only when
the constructed name is the recognized name (directly or as the final
segment of a qualified path) and the FIRST constructor argument is a literal
structure; a site failing either condition is skipped without analysis and
without error. -/
theorem C7_locator_skips (callee : Node) (args : List Node)
    (h : isStateMachine callee = false ∨
      ∀ props, args.head? ≠ some (.objectExpr props)) :
    handleNewExpression (.newExpr callee args) = [] := by
  unfold handleNewExpression
  rcases h with h | h
  · simp [h]
  · by_cases hc : isStateMachine callee
    · simp only [hc, not_true_eq_false, if_false]
      match args with
      | [] => rfl
      | .objectExpr props :: rest => exact absurd rfl (h props)
      | .ident _ :: rest | .member _ _ :: rest | .lit _ :: rest
      | .arrayExpr _ :: rest | .arrowFn _ :: rest | .functionExpr _ :: rest
      | .block _ :: rest | .ret _ :: rest | .ifStmt _ _ :: rest
      | .switchStmt _ :: rest | .switchCase _ :: rest | .newExpr _ _ :: rest
      | .other :: rest => rfl
    · simp [hc]

/-- Witness for C7's amended theorem: an unrecognized constructed name is
skipped. -/
theorem C7_witness :
    handleNewExpression (.newExpr (.ident "Foo") exTwoArgs) = [] :=
  C7_locator_skips (.ident "Foo") exTwoArgs (Or.inl (by decide))

/-- Locating the execute thunk only reads properties keyed `execute`: an
`undo` property anywhere in the returned structure can be removed without
changing the result. -/
theorem getExecuteFromObject_skips_undo (pre post : List ObjMember) (u : Node) :
    getExecuteFromObject (pre ++ .property (.ident "undo") u :: post)
      = getExecuteFromObject (pre ++ post) := by
  induction pre with
  | nil => rfl
  | cons p rest ih =>
    match p with
    | .nonProperty => simpa [getExecuteFromObject] using ih
    | .property (.strLit _) _ => simpa [getExecuteFromObject] using ih
    | .property .other _ => simpa [getExecuteFromObject] using ih
    | .property (.ident name) v =>
      by_cases hn : name = "execute"
      · subst hn
        by_cases hf : isFunctionLike v
        · simp [getExecuteFromObject, hf]
        · simpa [getExecuteFromObject, hf] using ih
      · simpa [getExecuteFromObject, hn] using ih

/-- C9: the diagnostics for a pair depend only on the declared list and the
`execute` property of the factory's returned structure — removing a sibling
`undo` property, or replacing its content, leaves the diagnostic list
unchanged (shown for the implicit-return arrow factory and the
block-return function factory; `getExecuteFromObject_skips_undo` carries
the underlying invariance). -/
theorem C9_undo_never_inspected (pre post : List ObjMember) (u u' : Node)
    (messageName : String) (targetStates : List String) :
    (analyzeCommandFactory
        (.arrowFn (.objectExpr (pre ++ .property (.ident "undo") u :: post)))
        messageName targetStates
      = analyzeCommandFactory (.arrowFn (.objectExpr (pre ++ post)))
        messageName targetStates) ∧
    (analyzeCommandFactory
        (.arrowFn (.objectExpr (pre ++ .property (.ident "undo") u :: post)))
        messageName targetStates
      = analyzeCommandFactory
        (.arrowFn (.objectExpr (pre ++ .property (.ident "undo") u' :: post)))
        messageName targetStates) ∧
    (analyzeCommandFactory
        (.functionExpr (.block
          [.ret (some (.objectExpr (pre ++ .property (.ident "undo") u :: post)))]))
        messageName targetStates
      = analyzeCommandFactory
        (.functionExpr (.block [.ret (some (.objectExpr (pre ++ post)))]))
        messageName targetStates) := by
  refine ⟨?_, ?_, ?_⟩ <;>
    · unfold analyzeCommandFactory
      simp only [findExecuteMethod, findExecuteInStatements,
        getExecuteFromObject_skips_undo]

/-- C10: throughout the analysis a property participates only when its key
is a plain identifier; a key written as a string literal (or any other
non-identifier key shape) is silently skipped by the config/commands scan,
the state and message loops of both the Config Extractor and the command
checker, the `on` lookup, the `execute` lookup, and the `id` lookup — so a
quoted key contributes nothing anywhere. -/
theorem C10_nonidentifier_keys_skipped (k : PropKey)
    (hk : ∀ name, k ≠ .ident name) (v : Node) (rest : List ObjMember)
    (acc : Option (List ObjMember) × Option (List ObjMember))
    (transitions : TransitionMap) (messageMap : MessageMap)
    (messageMap' : MessageMap) (transitions' : TransitionMap) :
    scanConfigCommands (.property k v :: rest) acc = scanConfigCommands rest acc ∧
    parseStates (.property k v :: rest) transitions = parseStates rest transitions ∧
    parseMessages (.property k v :: rest) messageMap = parseMessages rest messageMap ∧
    checkStates (.property k v :: rest) transitions' = checkStates rest transitions' ∧
    checkMessages (.property k v :: rest) messageMap' = checkMessages rest messageMap' ∧
    findOnProp (.property k v :: rest) = findOnProp rest ∧
    getExecuteFromObject (.property k v :: rest) = getExecuteFromObject rest ∧
    findIdProp (.property k v :: rest) = findIdProp rest := by
  match k with
  | .ident name => exact absurd rfl (hk name)
  | .strLit s => exact ⟨rfl, rfl, rfl, rfl, rfl, rfl, rfl, rfl⟩
  | .other => exact ⟨rfl, rfl, rfl, rfl, rfl, rfl, rfl, rfl⟩

/-- Witness for C10 at a quoted `'config'` key with an object value. -/
theorem C10_witness :
    scanConfigCommands [.property (.strLit "config") (.objectExpr exConfigProps)]
        (none, none)
      = scanConfigCommands [] (none, none) ∧
    parseStates [.property (.strLit "config") (.objectExpr exConfigProps)] []
      = parseStates [] [] ∧
    parseMessages [.property (.strLit "config") (.objectExpr exConfigProps)] []
      = parseMessages [] [] ∧
    checkStates [.property (.strLit "config") (.objectExpr exConfigProps)] []
      = checkStates [] [] ∧
    checkMessages [.property (.strLit "config") (.objectExpr exConfigProps)] []
      = checkMessages [] [] ∧
    findOnProp [.property (.strLit "config") (.objectExpr exConfigProps)]
      = findOnProp [] ∧
    getExecuteFromObject [.property (.strLit "config") (.objectExpr exConfigProps)]
      = getExecuteFromObject [] ∧
    findIdProp [.property (.strLit "config") (.objectExpr exConfigProps)]
      = findIdProp [] :=
  C10_nonidentifier_keys_skipped (.strLit "config")
    (fun _ h => PropKey.noConfusion h) (.objectExpr exConfigProps) [] (none, none)
    [] [] [] []

/-- C3, evaluated at the failing input: an execute thunk whose two switch
cases each return a literal structure with a string-literal id collects
NOTHING — `visit` hands each `SwitchCase`'s raw `consequent` statement
array to itself, where it matches none of the child checks (only `node.body`
is ever tested with `Array.isArray`), so the returns inside the case bodies
are never reached.  The claim (and the walk's own `cases` handling and
`Statement[]`-accepting signature) require both ids to be collected, which
would suppress any diagnostic; instead the set is empty and the pair is
silently skipped. -/
theorem C3_switch_cases_not_traversed :
    findReturnedStateIds exExecSwitch = [] ∧
    analyzeCommandFactory
        (.arrowFn (.objectExpr [.property (.ident "execute") exExecSwitch]))
        "toggle" ["active", "idle"] = [] :=
  ⟨rfl, rfl⟩

/-- Membership after a `Set.add`: the element was already there or is the
added one. -/
theorem mem_addId {s t : String} {ids : List String} (h : s ∈ addId t ids) :
    s ∈ ids ∨ s = t := by
  unfold addId at h
  by_cases hc : ids.contains t
  · rw [if_pos hc] at h
    exact Or.inl h
  · rw [if_neg hc] at h
    rcases List.mem_append.mp h with h | h
    · exact Or.inl h
    · exact Or.inr (List.mem_singleton.mp h)

/-- Membership after a guarded add of an extraction result. -/
theorem mem_addExtracted {o : Option String} {s : String} {ids : List String}
    (h : s ∈ addExtracted o ids) : s ∈ ids ∨ o = some s := by
  match o with
  | none => exact Or.inl h
  | some t =>
    simp only [addExtracted] at h
    by_cases ht : t = ""
    · rw [if_pos ht] at h
      exact Or.inl h
    · rw [if_neg ht] at h
      rcases mem_addId h with h | h
      · exact Or.inl h
      · exact Or.inr (by rw [h])

mutual

/-- Soundness of the reachability walk: every id in the accumulator after
visiting `n` was already there, or was extracted from a literal-id
structure at a visit-reachable position in `n`. -/
theorem visitNode_sound : ∀ (n : Node) (acc : List String) (s : String),
    s ∈ visitNode n acc →
    s ∈ acc ∨ ∃ m, Reaches n m ∧ extractStateIdFromExpression m = some s
  | .arrowFn body, acc, s, h => by
    simp only [visitNode] at h
    rcases visitNode_sound body _ s h with h' | ⟨m, hr, he⟩
    · by_cases hb : isBlockStatement body
      · rw [if_pos hb] at h'
        exact Or.inl h'
      · rw [if_neg hb] at h'
        rcases mem_addExtracted h' with h'' | h''
        · exact Or.inl h''
        · exact Or.inr ⟨body, .arrowBody (.refl body), h''⟩
    · exact Or.inr ⟨m, .arrowBody hr, he⟩
  | .functionExpr body, acc, s, h => by
    simp only [visitNode] at h
    rcases visitNode_sound body acc s h with h' | ⟨m, hr, he⟩
    · exact Or.inl h'
    · exact Or.inr ⟨m, .fnBody hr, he⟩
  | .block stmts, acc, s, h => by
    simp only [visitNode] at h
    rcases visitNodeList_sound stmts acc s h with h' | ⟨x, hx, m, hr, he⟩
    · exact Or.inl h'
    · exact Or.inr ⟨m, .blockStmt hx hr, he⟩
  | .ret none, acc, s, h => Or.inl h
  | .ret (some arg), acc, s, h => by
    simp only [visitNode] at h
    rcases visitNode_sound arg _ s h with h' | ⟨m, hr, he⟩
    · rcases mem_addExtracted h' with h'' | h''
      · exact Or.inl h''
      · exact Or.inr ⟨arg, .retArg (.refl arg), h''⟩
    · exact Or.inr ⟨m, .retArg hr, he⟩
  | .ifStmt c none, acc, s, h => by
    simp only [visitNode] at h
    rcases visitNode_sound c acc s h with h' | ⟨m, hr, he⟩
    · exact Or.inl h'
    · exact Or.inr ⟨m, .ifCons hr, he⟩
  | .ifStmt c (some a), acc, s, h => by
    simp only [visitNode] at h
    rcases visitNode_sound a _ s h with h' | ⟨m, hr, he⟩
    · rcases visitNode_sound c acc s h' with h'' | ⟨m, hr, he⟩
      · exact Or.inl h''
      · exact Or.inr ⟨m, .ifCons hr, he⟩
    · exact Or.inr ⟨m, .ifAlt hr, he⟩
  | .switchStmt cases, acc, s, h => by
    simp only [visitNode] at h
    rcases visitNodeList_sound cases acc s h with h' | ⟨x, hx, m, hr, he⟩
    · exact Or.inl h'
    · exact Or.inr ⟨m, .switchCases hx hr, he⟩
  | .switchCase consequent, acc, s, h => Or.inl h
  | .ident _, acc, s, h => Or.inl h
  | .member _ _, acc, s, h => Or.inl h
  | .lit _, acc, s, h => Or.inl h
  | .objectExpr _, acc, s, h => Or.inl h
  | .arrayExpr _, acc, s, h => Or.inl h
  | .newExpr _ _, acc, s, h => Or.inl h
  | .other, acc, s, h => Or.inl h

/-- Soundness of `forEach(visit)` over a node list. -/
theorem visitNodeList_sound : ∀ (ns : List Node) (acc : List String) (s : String),
    s ∈ visitNodeList ns acc →
    s ∈ acc ∨ ∃ x ∈ ns, ∃ m, Reaches x m ∧ extractStateIdFromExpression m = some s
  | [], _, _, h => Or.inl h
  | n :: rest, acc, s, h => by
    simp only [visitNodeList] at h
    rcases visitNodeList_sound rest _ s h with h' | ⟨x, hx, m, hr, he⟩
    · rcases visitNode_sound n acc s h' with h'' | ⟨m, hr, he⟩
      · exact Or.inl h''
      · exact Or.inr ⟨n, List.mem_cons_self n rest, m, hr, he⟩
    · exact Or.inr ⟨x, List.mem_cons_of_mem n hx, m, hr, he⟩

end

/-- C8: the Implementation Scanner is embedded as a total, structurally
terminating function (it cannot raise, and the source's visited-guard is
vacuous on parser-produced trees), and every member of its Returned-State
Set is the string-literal `id` of a literal structure at a reachable
position — so every unrecognized shape contributes only omission, never an
invented id. -/
theorem C8_scanner_only_collects_literal_ids (funcNode : Node) (s : String)
    (h : s ∈ findReturnedStateIds funcNode) :
    ∃ m, Reaches funcNode m ∧ extractStateIdFromExpression m = some s := by
  rcases visitNode_sound funcNode [] s h with h' | h'
  · exact absurd h' (List.not_mem_nil s)
  · exact h'

/-- Witness for C8 at the always-active execute thunk. -/
theorem C8_witness :
    ∃ m, Reaches exExecActive m ∧
      extractStateIdFromExpression m = some "active" :=
  C8_scanner_only_collects_literal_ids exExecActive "active" (by decide)

end StateMachineRule
